import Mathlib

/-!
Shallow embedding of the diff-parsing core of `drone-ai-pr-reviewer`:

* `filter_files_by_patterns` embeds `src/drone_ai_pr_reviewer/utils/file_filter.py`
  (the pathspec library's `PathSpec.from_lines(...).match_file` is treated as an
  abstract parameter `spec : List PyStr → PyStr → Bool`);
* `parse_diff_text` embeds the live part of
  `src/drone_ai_pr_reviewer/diff_parser.py` (lines 29-143; everything after the
  `return result` on line 143 is unreachable and is not part of the embedding);
* `resolve_comment_position` embeds the mapping-lookup core of
  `post_review_comments` in `src/drone_ai_pr_reviewer/scm_client.py`
  (lines 227-246).

Python strings are embedded as `List Char` (`PyStr`); Python dicts with `int`
keys as insertion-ordered association lists; a Python exception escaping
`parse_diff_text` is embedded as the `none` result of an `Option` computation.
-/

set_option maxHeartbeats 1000000

abbrev PyStr := List Char

/-- Python `str.isspace` / `str.split()` whitespace set, per character
(ASCII whitespace, the C1 separators, and the Unicode space separators). -/
def isPySpaceChar (c : Char) : Bool :=
  let n := c.toNat
  (decide (9 ≤ n) && decide (n ≤ 13)) || (decide (28 ≤ n) && decide (n ≤ 32)) ||
  decide (n = 133) || decide (n = 160) || decide (n = 0x1680) ||
  (decide (0x2000 ≤ n) && decide (n ≤ 0x200a)) ||
  decide (n = 0x2028) || decide (n = 0x2029) || decide (n = 0x202f) ||
  decide (n = 0x205f) || decide (n = 0x3000)

/-- Python `str.splitlines` line-boundary characters. -/
def isPyLineBreakChar (c : Char) : Bool :=
  let n := c.toNat
  decide (n = 10) || decide (n = 11) || decide (n = 12) || decide (n = 13) ||
  decide (n = 28) || decide (n = 29) || decide (n = 30) || decide (n = 133) ||
  decide (n = 0x2028) || decide (n = 0x2029)

/-- Python `str.isspace()`: non-empty and every character is whitespace. -/
def pyIsSpace (s : PyStr) : Bool :=
  !s.isEmpty && s.all isPySpaceChar

/-- Python `str.startswith(pre)`. -/
def pyStartsWith (pre s : PyStr) : Bool :=
  List.isPrefixOf pre s

/-- Python `str.splitlines()` over the character list, with an accumulator for
the current (reversed) line; `\r\n` counts as a single boundary. -/
def pySplitlinesAux : List Char → List Char → List (List Char)
  | [], acc => if acc.isEmpty then [] else [acc.reverse]
  | '\r' :: '\n' :: rest, acc => acc.reverse :: pySplitlinesAux rest []
  | c :: rest, acc =>
    if isPyLineBreakChar c then
      acc.reverse :: pySplitlinesAux rest []
    else
      pySplitlinesAux rest (c :: acc)

def pySplitlines (s : PyStr) : List PyStr :=
  pySplitlinesAux s []

/-- Python `str.split()` (split on whitespace runs, dropping empty pieces),
with an accumulator for the current (reversed) word. -/
def pySplitWSAux : List Char → List Char → List (List Char)
  | [], acc => if acc.isEmpty then [] else [acc.reverse]
  | c :: rest, acc =>
    if isPySpaceChar c then
      if acc.isEmpty then pySplitWSAux rest []
      else acc.reverse :: pySplitWSAux rest []
    else
      pySplitWSAux rest (c :: acc)

def pySplitWS (s : PyStr) : List PyStr :=
  pySplitWSAux s []

/-- Python `str.split(sep)` specialized to a two-character separator `[a, b]`
(the parser only splits on `"a/"` and `"b/"`): scan left to right, emitting
the accumulated piece at each occurrence of the separator and resuming after
it. -/
def pySplitOn2Aux (a b : Char) : List Char → List Char → List (List Char)
  | [], acc => [acc.reverse]
  | [c], acc => [(c :: acc).reverse]
  | c :: d :: rest, acc =>
    if c = a ∧ d = b then
      acc.reverse :: pySplitOn2Aux a b rest []
    else
      pySplitOn2Aux a b (d :: rest) (c :: acc)

def pySplitOn2 (a b : Char) (s : List Char) : List (List Char) :=
  pySplitOn2Aux a b s []

/-- Insertion into a Python `dict` with `int` keys, viewed as an
insertion-ordered association list: overwrite in place if the key exists,
otherwise append at the end. -/
def dictInsert (d : List (Nat × Nat × Nat)) (k : Nat) (v : Nat × Nat) :
    List (Nat × Nat × Nat) :=
  match d with
  | [] => [(k, v)]
  | e :: rest => if e.1 = k then (k, v) :: rest else e :: dictInsert rest k v

/-- Python `k in d` for the dict model. -/
def dictContains (d : List (Nat × Nat × Nat)) (k : Nat) : Bool :=
  d.any fun e => e.1 == k

/-- Python `d[k]` for the dict model (first entry with the key; keys built by
the parser are unique). -/
def dictGet (d : List (Nat × Nat × Nat)) (k : Nat) : Option (Nat × Nat) :=
  (d.find? fun e => e.1 == k).map (·.2)

/-- `models.py` `DiffChunk` (the `changes` entries are the Python dicts with
keys `type`, `content`, `ln`, `ln2`, embedded as a structure). -/
structure Change where
  type : String
  content : PyStr
  ln : Option Nat
  ln2 : Option Nat
deriving DecidableEq, Repr

structure DiffChunk where
  content : PyStr
  changes : List Change
  header : PyStr
  hunk_line_mapping : List (Nat × Nat × Nat)
deriving DecidableEq, Repr

/-- `models.py` `DiffFile` (the `diff_file_native_obj` field is always `None`
in the live parser and is omitted). -/
structure DiffFile where
  old_path : Option PyStr
  new_path : Option PyStr
  is_new_file : Bool := false
  is_deleted_file : Bool := false
  is_renamed_file : Bool := false
  chunks : List DiffChunk := []
  hunk_line_mappings : List (List (Nat × Nat × Nat)) := []
deriving DecidableEq, Repr

/-- Truthiness of a Python `Optional[List]`: `None` and `[]` are falsy. -/
def optTruthy (o : Option (List PyStr)) : Bool :=
  match o with
  | none => false
  | some [] => false
  | some (_ :: _) => true

/-- Embedding of `utils/file_filter.py` `filter_files_by_patterns`.
`spec patterns f` abstracts `PathSpec.from_lines(GitWildMatchPattern,
patterns).match_file(f)` from the external pathspec library. -/
def filter_files_by_patterns (spec : List PyStr → PyStr → Bool)
    (files : List PyStr)
    (include_patterns exclude_patterns : Option (List PyStr)) : List PyStr :=
  if files.isEmpty then []
  else
    let included_files :=
      if optTruthy include_patterns then
        files.filter fun f => spec (include_patterns.getD []) f
      else files
    if optTruthy exclude_patterns then
      included_files.filter fun f => !spec (exclude_patterns.getD []) f
    else included_files

/-- Parser loop state: the Python locals of `parse_diff_text`
(`result`, `current_file`, `current_chunk`, `current_hunk_line`,
`current_diff_line`). -/
structure ParseState where
  result : List DiffFile
  current_file : Option DiffFile
  current_chunk : Option DiffChunk
  current_hunk_line : Nat
  current_diff_line : Nat
deriving DecidableEq, Repr

def initState : ParseState :=
  { result := [], current_file := none, current_chunk := none,
    current_hunk_line := 0, current_diff_line := 0 }

/-- `diff_parser.py` lines 58-82: the `diff --git` branch. Flush the previous
file (with its pending chunk and that chunk's mapping), tokenize the boundary
line, extract and filter the display path, and open a new file. `none` models
the `IndexError` raised when a path token lacks the `b/` (resp. `a/`)
substring. -/
def fileBoundaryStep (spec : List PyStr → PyStr → Bool)
    (include_patterns exclude_patterns : Option (List PyStr))
    (st : ParseState) (line : PyStr) : Option ParseState :=
  let st :=
    match st.current_file, st.current_chunk with
    | some f, some ck =>
      { st with
        result := st.result ++
          [{ f with
             chunks := f.chunks ++ [ck],
             hunk_line_mappings :=
               f.hunk_line_mappings ++ [ck.hunk_line_mapping] }] }
    | _, _ => st
  let paths := ((pySplitWS line).drop 2).take 2
  if 1 < paths.length then
    match (pySplitOn2 'b' '/' (paths.getD 1 [])).drop 1 with
    | [] => none
    | display_path :: _ =>
      if display_path.isEmpty ||
         (filter_files_by_patterns spec [display_path]
            include_patterns exclude_patterns).isEmpty then
        some { st with current_file := none, current_chunk := none }
      else
        match (pySplitOn2 'a' '/' (paths.getD 0 [])).drop 1 with
        | [] => none
        | old_p :: _ =>
          -- new_path recomputes paths[1].split("b/")[1], the same pure
          -- expression that produced display_path
          some { st with
                 current_file :=
                   some ({ old_path := some old_p,
                           new_path := some display_path,
                           chunks := [], hunk_line_mappings := [] }),
                 current_chunk := none,
                 current_hunk_line := 0, current_diff_line := 0 }
  else
    -- display_path is None: skip the file
    some { st with current_file := none, current_chunk := none }

/-- `diff_parser.py` lines 84-99: the `@@` branch (only taken when
`current_file` is set). Flush the previous chunk into the file and start a new
one with both counters reset to 1. -/
def hunkHeaderStep (st : ParseState) (line : PyStr) : ParseState :=
  let st :=
    match st.current_file, st.current_chunk with
    | some f, some ck =>
      { st with
        current_file :=
          some ({ f with
                  chunks := f.chunks ++ [ck],
                  hunk_line_mappings :=
                    f.hunk_line_mappings ++ [ck.hunk_line_mapping] }) }
    | _, _ => st
  { st with
    current_chunk :=
      some ({ content := line ++ ['\n'], changes := [], header := line,
              hunk_line_mapping := [] }),
    current_hunk_line := 1, current_diff_line := 1 }

/-- `diff_parser.py` lines 101-112: an added line inside a hunk. -/
def addLineStep (st : ParseState) (ck : DiffChunk) (line : PyStr) : ParseState :=
  { st with
    current_chunk :=
      some ({ ck with
              content := ck.content ++ line ++ ['\n'],
              changes := ck.changes ++
                [{ type := "add", content := line.drop 1,
                   ln := some st.current_hunk_line, ln2 := none }],
              hunk_line_mapping := dictInsert ck.hunk_line_mapping
                st.current_hunk_line
                (st.current_hunk_line, st.current_diff_line) }),
    current_hunk_line := st.current_hunk_line + 1,
    current_diff_line := st.current_diff_line + 1 }

/-- `diff_parser.py` lines 114-123: a removed line inside a hunk (no mapping
entry, target counter unchanged). -/
def removeLineStep (st : ParseState) (ck : DiffChunk) (line : PyStr) : ParseState :=
  { st with
    current_chunk :=
      some ({ ck with
              content := ck.content ++ line ++ ['\n'],
              changes := ck.changes ++
                [{ type := "remove", content := line.drop 1,
                   ln := none, ln2 := some st.current_hunk_line }] }),
    current_diff_line := st.current_diff_line + 1 }

/-- `diff_parser.py` lines 125-136: a context line inside a hunk. -/
def contextLineStep (st : ParseState) (ck : DiffChunk) (line : PyStr) : ParseState :=
  { st with
    current_chunk :=
      some ({ ck with
              content := ck.content ++ line ++ ['\n'],
              changes := ck.changes ++
                [{ type := "context", content := line.drop 1,
                   ln := some st.current_hunk_line,
                   ln2 := some st.current_hunk_line }],
              hunk_line_mapping := dictInsert ck.hunk_line_mapping
                st.current_hunk_line
                (st.current_hunk_line, st.current_diff_line) }),
    current_hunk_line := st.current_hunk_line + 1,
    current_diff_line := st.current_diff_line + 1 }

/-- One iteration of the `for line in diff_text.splitlines()` loop
(`diff_parser.py` lines 57-136), mirroring the `if`/`elif` chain. -/
def processLine (spec : List PyStr → PyStr → Bool)
    (include_patterns exclude_patterns : Option (List PyStr))
    (st : ParseState) (line : PyStr) : Option ParseState :=
  if pyStartsWith "diff --git".data line then
    fileBoundaryStep spec include_patterns exclude_patterns st line
  else if pyStartsWith "@@".data line && st.current_file.isSome then
    some (hunkHeaderStep st line)
  else if pyStartsWith "+".data line && st.current_chunk.isSome then
    match st.current_chunk with
    | some ck => some (addLineStep st ck line)
    | none => some st
  else if pyStartsWith "-".data line && st.current_chunk.isSome then
    match st.current_chunk with
    | some ck => some (removeLineStep st ck line)
    | none => some st
  else if pyStartsWith " ".data line && st.current_chunk.isSome then
    match st.current_chunk with
    | some ck => some (contextLineStep st ck line)
    | none => some st
  else
    some st

/-- The whole loop; `none` models an uncaught exception. -/
def runLines (spec : List PyStr → PyStr → Bool)
    (include_patterns exclude_patterns : Option (List PyStr)) :
    ParseState → List PyStr → Option ParseState
  | st, [] => some st
  | st, l :: ls =>
    match processLine spec include_patterns exclude_patterns st l with
    | none => none
    | some st' => runLines spec include_patterns exclude_patterns st' ls

/-- `diff_parser.py` lines 138-141: the end-of-input flush appends the pending
chunk and file, but not the chunk's `hunk_line_mapping`. -/
def finalFlush (st : ParseState) : List DiffFile :=
  match st.current_file, st.current_chunk with
  | some f, some ck => st.result ++ [{ f with chunks := f.chunks ++ [ck] }]
  | _, _ => st.result

/-- Embedding of `parse_diff_text` (`diff_parser.py` lines 29-143).
Parameter order follows the Python signature
`parse_diff_text(diff_text, exclude_patterns, include_patterns)`;
`spec` abstracts the pathspec matcher used by the Path Filter. -/
def parse_diff_text (spec : List PyStr → PyStr → Bool) (diff_text : String)
    (exclude_patterns include_patterns : Option (List PyStr) := none) :
    Option (List DiffFile) :=
  if diff_text.data.isEmpty then some []
  else if diff_text.data.isEmpty || pyIsSpace diff_text.data then some []
  else
    match runLines spec include_patterns exclude_patterns initState
        (pySplitlines diff_text.data) with
    | none => none
    | some st => some (finalFlush st)

/-- The mapping scan of `post_review_comments` (`scm_client.py` lines
227-232): the first hunk mapping in `hunk_line_mappings` that contains the
line number. -/
def findCorrectHunk (mappings : List (List (Nat × Nat × Nat)))
    (line_number : Nat) : Option (List (Nat × Nat × Nat)) :=
  mappings.find? fun m => dictContains m line_number

/-- The position lookup of `post_review_comments` (`scm_client.py` lines
227-239): scan `hunk_line_mappings` in order, take the first mapping that
contains the target line, and return the recorded diff-relative position. -/
def resolve_comment_position (f : DiffFile) (line_number : Nat) : Option Nat :=
  match findCorrectHunk f.hunk_line_mappings line_number with
  | none => none
  | some m => (dictGet m line_number).map (·.2)

/-! ### Proof-side specifications

`buildMapping` recomputes a hunk's `hunk_line_mapping` from its `changes`
list and is the invariant the parser maintains while inside a hunk; the
`good*` predicates are the loop invariant of `parse_diff_text`. -/

def isMappedType (t : String) : Bool :=
  t == "add" || t == "context"

/-- Both counters start at 1 at the start of a hunk; an `add` or `context`
change is recorded at the current target counter together with the current
diff position and advances both counters; a `remove` change only advances the
diff position. -/
def buildMappingAux : List Change → Nat → Nat → List (Nat × Nat × Nat)
  | [], _, _ => []
  | c :: cs, hl, dl =>
    if isMappedType c.type then (hl, hl, dl) :: buildMappingAux cs (hl + 1) (dl + 1)
    else buildMappingAux cs hl (dl + 1)

def buildMapping (cs : List Change) : List (Nat × Nat × Nat) :=
  buildMappingAux cs 1 1

/-- Number of `add`/`context` changes (the ones that receive a mapping key). -/
def numMapped (cs : List Change) : Nat :=
  (cs.filter fun c => isMappedType c.type).length

/-- Invariant tying an in-progress chunk to the two loop counters. -/
def goodChunk (ck : DiffChunk) (hl dl : Nat) : Prop :=
  ck.hunk_line_mapping = buildMapping ck.changes ∧
  hl = 1 + numMapped ck.changes ∧
  dl = 1 + ck.changes.length

/-- Invariant of every `DiffFile` the parser creates. -/
def goodFile (f : DiffFile) : Prop :=
  f.old_path.isSome = true ∧ f.new_path.isSome = true ∧
  f.is_new_file = false ∧ f.is_deleted_file = false ∧ f.is_renamed_file = false ∧
  (∀ ck ∈ f.chunks, ck.hunk_line_mapping = buildMapping ck.changes) ∧
  (∀ m ∈ f.hunk_line_mappings, ∃ cs, m = buildMapping cs)

/-- Loop invariant of the parser state. -/
def goodState (st : ParseState) : Prop :=
  (∀ f ∈ st.result, goodFile f ∧ f.chunks ≠ []) ∧
  (∀ f, st.current_file = some f → goodFile f) ∧
  (∀ ck, st.current_chunk = some ck →
    goodChunk ck st.current_hunk_line st.current_diff_line)

/-! ### Concrete inputs used by witnesses and counterexamples -/

/-- A concrete pathspec matcher for instantiating the abstract matcher. -/
def anySpec : List PyStr → PyStr → Bool := fun _ _ => true

def emptyChunk : DiffChunk :=
  { content := [], changes := [], header := [], hunk_line_mapping := [] }

def emptyDiffFile : DiffFile :=
  { old_path := none, new_path := none }

/-- Default `Change` for out-of-range `getD` reads in statements (its type is
neither `add` nor `context`). -/
def dummyChange : Change :=
  { type := "", content := [], ln := none, ln2 := none }

/-- One file, one hunk with a context, a removed and an added line. -/
def wDiff : String :=
  "diff --git a/f.txt b/f.txt\n@@ -1,3 +1,3 @@\n keep\n-old\n+new"

def wFiles : List DiffFile := (parse_diff_text anySpec wDiff none none).getD []

def wFile : DiffFile := wFiles.getD 0 emptyDiffFile

def wChunk : DiffChunk := wFile.chunks.getD 0 emptyChunk

/-- One file, two hunks; the first hunk's mapping is the only one appended to
`hunk_line_mappings` (the second is dropped by the end-of-input flush). -/
def w1Diff : String :=
  "diff --git a/g b/g\n@@ -1,2 +1,2 @@\n c1\n+a1\n@@ -9,1 +9,1 @@\n c2"

def w1Files : List DiffFile := (parse_diff_text anySpec w1Diff none none).getD []

def w1File : DiffFile := w1Files.getD 0 emptyDiffFile

/-- Two hunks whose mappings both contain key 1 with different diff
positions: the first hunk records (1, 2) (a removed line precedes the added
line), the second records (1, 1). -/
def c1Diff : String :=
  "diff --git a/f b/f\n@@ -1 +1 @@\n-x\n+a\n@@ -3 +3 @@\n+b"

def c1Files : List DiffFile := (parse_diff_text anySpec c1Diff none none).getD []

def c1File : DiffFile := c1Files.getD 0 emptyDiffFile

/-- A single hunk starting at new-file line 5 (per its `@@ -5,1 +5,1 @@`
header) holding one context line. -/
def c2Diff : String :=
  "diff --git a/f b/f\n@@ -5,1 +5,1 @@\n ctx"

def c2Files : List DiffFile := (parse_diff_text anySpec c2Diff none none).getD []

def c2Chunk : DiffChunk := (c2Files.getD 0 emptyDiffFile).chunks.getD 0 emptyChunk

/-- A pure-deletion diff in git format: both header paths present, the hunk
holds only removed lines, the new-file side (`+++ /dev/null`) is gone. -/
def c4Diff : String :=
  "diff --git a/gone.txt b/gone.txt\ndeleted file mode 100644\nindex abc..000\n--- a/gone.txt\n+++ /dev/null\n@@ -1,2 +0,0 @@\n-one\n-two"

/-- A file-boundary line `diff --git a/<p> b/<q>` built from the two paths. -/
def c7Line (p q : PyStr) : PyStr :=
  "diff --git a/".data ++ p ++ (' ' :: ('b' :: ('/' :: q)))

/-- The old/new paths of the parse of `diff --git a/xa/y b/ab/c` followed by
one one-line hunk: the extraction returns the pieces between the first and
second occurrences of `a/` / `b/`, not the full paths. -/
def c7CexDiff : String :=
  "diff --git a/xa/y b/ab/c\n@@ -1 +1 @@\n+z"

/-! ### Lemmas: the dict model -/

lemma dictInsert_fresh (d : List (Nat × Nat × Nat)) (k : Nat) (v : Nat × Nat)
    (h : ∀ e ∈ d, e.1 ≠ k) : dictInsert d k v = d ++ [(k, v)] := by
  induction d with
  | nil => rfl
  | cons e rest ih =>
    have he : e.1 ≠ k := h e (by simp)
    simp only [dictInsert, if_neg he, List.cons_append, List.cons.injEq, true_and]
    exact ih fun e' he' => h e' (by simp [he'])

lemma find?_of_pairwise_keys {m : List (Nat × Nat × Nat)} {t : Nat}
    {v : Nat × Nat} (hp : List.Pairwise (fun a b => a.1 < b.1) m)
    (hm : (t, v) ∈ m) : m.find? (fun e => e.1 == t) = some (t, v) := by
  induction m with
  | nil => cases hm
  | cons e rest ih =>
    rcases List.mem_cons.mp hm with h | h
    · subst h
      simp [List.find?]
    · have hlt : e.1 < t := (List.pairwise_cons.mp hp).1 (t, v) h
      have hne : (e.1 == t) = false := by
        simp only [beq_eq_false_iff_ne, ne_eq]
        omega
      rw [List.find?, hne]
      exact ih (List.pairwise_cons.mp hp).2 h

/-! ### Lemmas: buildMapping -/

lemma numMapped_nil : numMapped [] = 0 := rfl

lemma numMapped_cons (c : Change) (cs : List Change) :
    numMapped (c :: cs) =
      (if isMappedType c.type then 1 else 0) + numMapped cs := by
  by_cases h : isMappedType c.type <;>
    simp [numMapped, List.filter_cons, h, Nat.add_comm]

lemma numMapped_append (l1 l2 : List Change) :
    numMapped (l1 ++ l2) = numMapped l1 + numMapped l2 := by
  simp [numMapped, List.filter_append]

lemma buildMappingAux_append_mapped (c : Change) (h : isMappedType c.type = true) :
    ∀ (cs : List Change) (hl dl : Nat),
      buildMappingAux (cs ++ [c]) hl dl =
        buildMappingAux cs hl dl ++
          [(hl + numMapped cs, hl + numMapped cs, dl + cs.length)] := by
  intro cs
  induction cs with
  | nil => intro hl dl; simp [buildMappingAux, h, numMapped_nil]
  | cons c0 cs ih =>
    intro hl dl
    by_cases h0 : isMappedType c0.type
    · have hy : (hl + 1 + numMapped cs, hl + 1 + numMapped cs, dl + 1 + cs.length) =
          (hl + numMapped (c0 :: cs), hl + numMapped (c0 :: cs),
            dl + (c0 :: cs).length) := by
        rw [numMapped_cons, if_pos h0]
        simp only [List.length_cons, Prod.mk.injEq]
        omega
      simp only [List.cons_append, buildMappingAux, List.append_eq, if_pos h0, ih, ← hy]
    · have hy : (hl + numMapped cs, hl + numMapped cs, dl + 1 + cs.length) =
          (hl + numMapped (c0 :: cs), hl + numMapped (c0 :: cs),
            dl + (c0 :: cs).length) := by
        rw [numMapped_cons, if_neg h0]
        simp only [List.length_cons, Prod.mk.injEq]
        omega
      simp only [List.cons_append, buildMappingAux, List.append_eq, if_neg h0, ih, ← hy]

lemma buildMappingAux_append_unmapped (c : Change) (h : isMappedType c.type = false) :
    ∀ (cs : List Change) (hl dl : Nat),
      buildMappingAux (cs ++ [c]) hl dl = buildMappingAux cs hl dl := by
  intro cs
  induction cs with
  | nil =>
    intro hl dl
    simp [buildMappingAux, h]
  | cons c0 cs ih =>
    intro hl dl
    by_cases h0 : isMappedType c0.type
    · simp only [List.cons_append, buildMappingAux, List.append_eq, if_pos h0, ih]
    · simp only [List.cons_append, buildMappingAux, List.append_eq, if_neg h0, ih]

lemma buildMapping_snoc_mapped (cs : List Change) (c : Change)
    (h : isMappedType c.type = true) :
    buildMapping (cs ++ [c]) =
      buildMapping cs ++ [(1 + numMapped cs, 1 + numMapped cs, 1 + cs.length)] := by
  simp [buildMapping, buildMappingAux_append_mapped c h]

lemma buildMapping_snoc_unmapped (cs : List Change) (c : Change)
    (h : isMappedType c.type = false) :
    buildMapping (cs ++ [c]) = buildMapping cs := by
  simp [buildMapping, buildMappingAux_append_unmapped c h]

lemma buildMappingAux_keys (cs : List Change) :
    ∀ hl dl, (buildMappingAux cs hl dl).map (fun e => e.1) =
      List.range' hl (numMapped cs) := by
  induction cs with
  | nil => intro hl dl; simp [buildMappingAux, numMapped_nil]
  | cons c cs ih =>
    intro hl dl
    by_cases h : isMappedType c.type
    · have hn : numMapped (c :: cs) = numMapped cs + 1 := by
        rw [numMapped_cons, if_pos h]
        omega
      rw [hn]
      simp only [buildMappingAux, if_pos h, List.map_cons, ih,
        List.range'_succ]
    · have hn : numMapped (c :: cs) = numMapped cs := by
        rw [numMapped_cons, if_neg h]
        omega
      rw [hn]
      simp only [buildMappingAux, if_neg h, ih]

lemma mem_buildMappingAux {e : Nat × Nat × Nat} (cs : List Change) :
    ∀ hl dl, e ∈ buildMappingAux cs hl dl →
      ∃ k, k < cs.length ∧
        numMapped (cs.take (k + 1)) = numMapped (cs.take k) + 1 ∧
        e = (hl + numMapped (cs.take k), hl + numMapped (cs.take k), dl + k) := by
  induction cs with
  | nil => intro hl dl h; simp [buildMappingAux] at h
  | cons c cs ih =>
    intro hl dl h
    by_cases hc : isMappedType c.type
    · rw [buildMappingAux, if_pos hc] at h
      rcases List.mem_cons.mp h with h | h
      · refine ⟨0, by simp, ?_, ?_⟩
        · simp [numMapped_cons, hc, numMapped_nil]
        · simp [h, numMapped_nil]
      · obtain ⟨k, hk, hstep, he⟩ := ih (hl + 1) (dl + 1) h
        refine ⟨k + 1, by simpa using hk, ?_, ?_⟩
        · simp only [List.take_succ_cons, numMapped_cons, if_pos hc]
          omega
        · rw [he]
          simp only [List.take_succ_cons, numMapped_cons, if_pos hc,
            Prod.mk.injEq]
          omega
    · rw [buildMappingAux, if_neg hc] at h
      obtain ⟨k, hk, hstep, he⟩ := ih hl (dl + 1) h
      refine ⟨k + 1, by simpa using hk, ?_, ?_⟩
      · simp only [List.take_succ_cons, numMapped_cons, if_neg hc]
        omega
      · rw [he]
        simp only [List.take_succ_cons, numMapped_cons, if_neg hc,
          Prod.mk.injEq]
        omega

lemma numMapped_take_mono (cs : List Change) {k1 k2 : Nat} (h : k1 ≤ k2) :
    numMapped (cs.take k1) ≤ numMapped (cs.take k2) := by
  have hd : cs.take k1 ++ (cs.drop k1).take (k2 - k1) = cs.take k2 := by
    have ha := List.take_add cs k1 (k2 - k1)
    rw [show k1 + (k2 - k1) = k2 from by omega] at ha
    exact ha.symm
  rw [← hd, numMapped_append]
  omega

lemma buildMappingAux_pairwise (cs : List Change) :
    ∀ hl dl, List.Pairwise (fun a b => a.1 < b.1) (buildMappingAux cs hl dl) := by
  induction cs with
  | nil => intro hl dl; simp [buildMappingAux]
  | cons c cs ih =>
    intro hl dl
    by_cases hc : isMappedType c.type
    · rw [buildMappingAux, if_pos hc]
      refine List.pairwise_cons.mpr ⟨?_, ih (hl + 1) (dl + 1)⟩
      intro e he
      obtain ⟨k, -, -, he'⟩ := mem_buildMappingAux cs (hl + 1) (dl + 1) he
      rw [he']
      show hl < hl + 1 + numMapped (cs.take k)
      omega
    · rw [buildMappingAux, if_neg hc]
      exact ih hl (dl + 1)

lemma buildMapping_pairwise (cs : List Change) :
    List.Pairwise (fun a b => a.1 < b.1) (buildMapping cs) :=
  buildMappingAux_pairwise cs 1 1

/-- Every key in `buildMapping cs` is below the next key `1 + numMapped cs`. -/
lemma buildMapping_keys_lt (cs : List Change) :
    ∀ e ∈ buildMapping cs, e.1 < 1 + numMapped cs := by
  intro e he
  obtain ⟨k, hk, hstep, he'⟩ := mem_buildMappingAux cs 1 1 he
  have h1 : numMapped (cs.take (k + 1)) ≤ numMapped cs := by
    calc numMapped (cs.take (k + 1)) ≤ numMapped (cs.take cs.length) :=
          numMapped_take_mono cs (by omega)
      _ = numMapped cs := by rw [List.take_length]
  rw [he']
  show 1 + numMapped (cs.take k) < 1 + numMapped cs
  omega

/-! ### Lemmas: the parser loop invariant -/

lemma goodFile_flush {f : DiffFile} {ck : DiffChunk} (hf : goodFile f)
    (hck : ck.hunk_line_mapping = buildMapping ck.changes) :
    goodFile { f with
               chunks := f.chunks ++ [ck],
               hunk_line_mappings :=
                 f.hunk_line_mappings ++ [ck.hunk_line_mapping] } := by
  obtain ⟨h1, h2, h3, h4, h5, h6, h7⟩ := hf
  refine ⟨h1, h2, h3, h4, h5, ?_, ?_⟩
  · intro ck' hck'
    rcases List.mem_append.mp hck' with hmem | hmem
    · exact h6 ck' hmem
    · rw [List.mem_singleton.mp hmem]
      exact hck
  · intro m hm
    rcases List.mem_append.mp hm with hmem | hmem
    · exact h7 m hmem
    · exact ⟨ck.changes, by rw [List.mem_singleton.mp hmem, hck]⟩

lemma goodFile_flush_chunks_only {f : DiffFile} {ck : DiffChunk}
    (hf : goodFile f)
    (hck : ck.hunk_line_mapping = buildMapping ck.changes) :
    goodFile { f with chunks := f.chunks ++ [ck] } := by
  obtain ⟨h1, h2, h3, h4, h5, h6, h7⟩ := hf
  refine ⟨h1, h2, h3, h4, h5, ?_, h7⟩
  intro ck' hck'
  rcases List.mem_append.mp hck' with hmem | hmem
  · exact h6 ck' hmem
  · rw [List.mem_singleton.mp hmem]
    exact hck

lemma goodState_fileBoundaryStep {spec : List PyStr → PyStr → Bool}
    {ip ep : Option (List PyStr)} {st : ParseState} {line : PyStr}
    {st' : ParseState} (hg : goodState st)
    (h : fileBoundaryStep spec ip ep st line = some st') : goodState st' := by
  obtain ⟨hres, hcf, hcc⟩ := hg
  unfold fileBoundaryStep at h
  rcases hf0 : st.current_file with _ | f <;>
    rcases hc0 : st.current_chunk with _ | ck <;>
      simp only [hf0, hc0] at h
  case' none.none | none.some | some.none =>
    have hres1 : ∀ f' ∈ st.result, goodFile f' ∧ f'.chunks ≠ [] := hres
  case' some.some =>
    have hres1 : ∀ f' ∈ st.result ++
        [{ f with
           chunks := f.chunks ++ [ck],
           hunk_line_mappings :=
             f.hunk_line_mappings ++ [ck.hunk_line_mapping] }],
        goodFile f' ∧ f'.chunks ≠ [] := by
      intro f' hf'
      rcases List.mem_append.mp hf' with hmem | hmem
      · exact hres f' hmem
      · rw [List.mem_singleton.mp hmem]
        refine ⟨goodFile_flush (hcf f hf0) (hcc ck hc0).1, by simp⟩
  all_goals (
    split at h
    · split at h
      · exact absurd h (by simp)
      · split at h
        · rw [Option.some.injEq] at h
          subst h
          refine ⟨hres1, ?_, ?_⟩
          · intro f' hf'
            simp at hf'
          · intro ck' hck'
            simp at hck'
        · split at h
          · exact absurd h (by simp)
          · rw [Option.some.injEq] at h
            subst h
            refine ⟨hres1, ?_, ?_⟩
            · intro f' hf'
              rw [Option.some.injEq] at hf'
              subst hf'
              exact ⟨rfl, rfl, rfl, rfl, rfl,
                fun ck' hck' => by simp at hck',
                fun m hm => by simp at hm⟩
            · intro ck' hck'
              simp at hck'
    · rw [Option.some.injEq] at h
      subst h
      refine ⟨hres1, ?_, ?_⟩
      · intro f' hf'
        simp at hf'
      · intro ck' hck'
        simp at hck')

lemma goodState_hunkHeaderStep {st : ParseState} {line : PyStr}
    (hg : goodState st) : goodState (hunkHeaderStep st line) := by
  obtain ⟨hres, hcf, hcc⟩ := hg
  unfold hunkHeaderStep
  have hnew : ∀ ck' : DiffChunk,
      some ({ content := line ++ ['\n'], changes := [], header := line,
              hunk_line_mapping := [] } : DiffChunk) = some ck' →
      goodChunk ck' 1 1 := by
    intro ck' hck'
    rw [Option.some.injEq] at hck'
    subst hck'
    exact ⟨rfl, rfl, rfl⟩
  rcases hf0 : st.current_file with _ | f <;>
    rcases hc0 : st.current_chunk with _ | ck <;>
      simp only [hf0, hc0]
  · exact ⟨hres, fun f' hf' => by rw [← hf0] at hf'; exact hcf f' hf', hnew⟩
  · exact ⟨hres, fun f' hf' => by rw [← hf0] at hf'; exact hcf f' hf', hnew⟩
  · exact ⟨hres, fun f' hf' => by rw [← hf0] at hf'; exact hcf f' hf', hnew⟩
  · refine ⟨hres, ?_, hnew⟩
    intro f' hf'
    rw [Option.some.injEq] at hf'
    subst hf'
    exact goodFile_flush (hcf f hf0) (hcc ck hc0).1

lemma numMapped_singleton (c : Change) :
    numMapped [c] = if isMappedType c.type then 1 else 0 := by
  by_cases h : isMappedType c.type <;> simp [numMapped, List.filter_cons, h]

lemma goodState_addLineStep {st : ParseState} {ck : DiffChunk} {line : PyStr}
    (hg : goodState st) (hck : st.current_chunk = some ck) :
    goodState (addLineStep st ck line) := by
  obtain ⟨hres, hcf, hcc⟩ := hg
  obtain ⟨hm, hhl, hdl⟩ := hcc ck hck
  refine ⟨hres, fun f' hf' => hcf f' hf', ?_⟩
  intro ck' hck'
  simp only [addLineStep] at hck' ⊢
  rw [Option.some.injEq] at hck'
  subst hck'
  have hfresh : ∀ e ∈ ck.hunk_line_mapping, e.1 ≠ st.current_hunk_line := by
    intro e he
    rw [hm] at he
    have := buildMapping_keys_lt ck.changes e he
    omega
  refine ⟨?_, ?_, ?_⟩
  · dsimp only
    rw [dictInsert_fresh _ _ _ hfresh, hm,
      buildMapping_snoc_mapped _ _ (by rfl), hhl, hdl]
  · dsimp only
    have h1 : numMapped
        [(⟨"add", line.drop 1, some st.current_hunk_line, none⟩ : Change)] = 1 := by
      simp [numMapped, isMappedType]
    rw [numMapped_append, h1]
    omega
  · dsimp only
    rw [List.length_append]
    simp
    omega

lemma goodState_removeLineStep {st : ParseState} {ck : DiffChunk} {line : PyStr}
    (hg : goodState st) (hck : st.current_chunk = some ck) :
    goodState (removeLineStep st ck line) := by
  obtain ⟨hres, hcf, hcc⟩ := hg
  obtain ⟨hm, hhl, hdl⟩ := hcc ck hck
  refine ⟨hres, fun f' hf' => hcf f' hf', ?_⟩
  intro ck' hck'
  simp only [removeLineStep] at hck' ⊢
  rw [Option.some.injEq] at hck'
  subst hck'
  refine ⟨?_, ?_, ?_⟩
  · dsimp only
    rw [hm, buildMapping_snoc_unmapped _ _ (by rfl)]
  · dsimp only
    have h1 : numMapped
        [(⟨"remove", line.drop 1, none, some st.current_hunk_line⟩ : Change)] = 0 := by
      simp [numMapped, isMappedType]
    rw [numMapped_append, h1]
    omega
  · dsimp only
    rw [List.length_append]
    simp
    omega

lemma goodState_contextLineStep {st : ParseState} {ck : DiffChunk} {line : PyStr}
    (hg : goodState st) (hck : st.current_chunk = some ck) :
    goodState (contextLineStep st ck line) := by
  obtain ⟨hres, hcf, hcc⟩ := hg
  obtain ⟨hm, hhl, hdl⟩ := hcc ck hck
  refine ⟨hres, fun f' hf' => hcf f' hf', ?_⟩
  intro ck' hck'
  simp only [contextLineStep] at hck' ⊢
  rw [Option.some.injEq] at hck'
  subst hck'
  have hfresh : ∀ e ∈ ck.hunk_line_mapping, e.1 ≠ st.current_hunk_line := by
    intro e he
    rw [hm] at he
    have := buildMapping_keys_lt ck.changes e he
    omega
  refine ⟨?_, ?_, ?_⟩
  · dsimp only
    rw [dictInsert_fresh _ _ _ hfresh, hm,
      buildMapping_snoc_mapped _ _ (by rfl), hhl, hdl]
  · dsimp only
    have h1 : numMapped
        [(⟨"context", line.drop 1, some st.current_hunk_line, some st.current_hunk_line⟩ : Change)] = 1 := by
      simp [numMapped, isMappedType]
    rw [numMapped_append, h1]
    omega
  · dsimp only
    rw [List.length_append]
    simp
    omega

lemma goodState_processLine {spec : List PyStr → PyStr → Bool}
    {ip ep : Option (List PyStr)} {st : ParseState} {line : PyStr}
    {st' : ParseState} (hg : goodState st)
    (h : processLine spec ip ep st line = some st') : goodState st' := by
  unfold processLine at h
  split at h
  · exact goodState_fileBoundaryStep hg h
  · split at h
    · rw [Option.some.injEq] at h
      subst h
      exact goodState_hunkHeaderStep hg
    · split at h
      · split at h
        next ck heq =>
          rw [Option.some.injEq] at h
          subst h
          exact goodState_addLineStep hg heq
        next heq =>
          rw [Option.some.injEq] at h
          subst h
          exact hg
      · split at h
        · split at h
          next ck heq =>
            rw [Option.some.injEq] at h
            subst h
            exact goodState_removeLineStep hg heq
          next heq =>
            rw [Option.some.injEq] at h
            subst h
            exact hg
        · split at h
          · split at h
            next ck heq =>
              rw [Option.some.injEq] at h
              subst h
              exact goodState_contextLineStep hg heq
            next heq =>
              rw [Option.some.injEq] at h
              subst h
              exact hg
          · rw [Option.some.injEq] at h
            subst h
            exact hg

lemma goodState_runLines {spec : List PyStr → PyStr → Bool}
    {ip ep : Option (List PyStr)} :
    ∀ (lines : List PyStr) (st st' : ParseState), goodState st →
      runLines spec ip ep st lines = some st' → goodState st' := by
  intro lines
  induction lines with
  | nil =>
    intro st st' hg h
    simp only [runLines, Option.some.injEq] at h
    subst h
    exact hg
  | cons l ls ih =>
    intro st st' hg h
    simp only [runLines] at h
    split at h
    · exact absurd h (by simp)
    next st1 heq =>
      exact ih st1 st' (goodState_processLine hg heq) h

lemma goodState_initState : goodState initState := by
  refine ⟨?_, ?_, ?_⟩ <;> intro x hx <;> simp [initState] at hx

/-- Every file of a successful `parse_diff_text` satisfies the `goodFile`
invariant and has at least one chunk. -/
lemma parse_diff_text_good {spec : List PyStr → PyStr → Bool} {s : String}
    {ep ip : Option (List PyStr)} {files : List DiffFile}
    (h : parse_diff_text spec s ep ip = some files) :
    ∀ f ∈ files, goodFile f ∧ f.chunks ≠ [] := by
  unfold parse_diff_text at h
  split at h
  · rw [Option.some.injEq] at h
    subst h
    intro f hf
    simp at hf
  · split at h
    · rw [Option.some.injEq] at h
      subst h
      intro f hf
      simp at hf
    · split at h
      · exact absurd h (by simp)
      next st hst =>
        rw [Option.some.injEq] at h
        subst h
        have hgst := goodState_runLines _ _ _ goodState_initState hst
        obtain ⟨hres, hcf, hcc⟩ := hgst
        unfold finalFlush
        rcases hf0 : st.current_file with _ | f0 <;>
          rcases hc0 : st.current_chunk with _ | ck0 <;>
            simp only [hf0, hc0]
        · exact hres
        · exact hres
        · exact hres
        · intro f hf
          rcases List.mem_append.mp hf with hmem | hmem
          · exact hres f hmem
          · rw [List.mem_singleton.mp hmem]
            exact ⟨goodFile_flush_chunks_only (hcf f0 hf0) (hcc ck0 hc0).1,
              by simp⟩

/-! ### Lemmas: the resolver and the position invariant -/

lemma resolve_head_mapping {f : DiffFile} (hf : goodFile f)
    {m : List (Nat × Nat × Nat)} {t hv pv : Nat}
    (hhead : f.hunk_line_mappings.head? = some m)
    (hmem : (t, hv, pv) ∈ m) :
    resolve_comment_position f t = some pv := by
  obtain ⟨-, -, -, -, -, -, h7⟩ := hf
  have hm_mem : m ∈ f.hunk_line_mappings := by
    cases hl : f.hunk_line_mappings with
    | nil => rw [hl] at hhead; simp at hhead
    | cons m0 rest =>
      rw [hl] at hhead
      simp only [List.head?_cons, Option.some.injEq] at hhead
      subst hhead
      simp
  obtain ⟨cs, hcs⟩ := h7 m hm_mem
  have hpw : List.Pairwise (fun a b => a.1 < b.1) m := by
    rw [hcs]
    exact buildMapping_pairwise cs
  have hfind : m.find? (fun e => e.1 == t) = some (t, hv, pv) :=
    find?_of_pairwise_keys hpw hmem
  have hcontains : dictContains m t = true := by
    unfold dictContains
    rw [List.any_eq_true]
    exact ⟨(t, hv, pv), hmem, by simp⟩
  unfold resolve_comment_position findCorrectHunk
  cases hl : f.hunk_line_mappings with
  | nil => rw [hl] at hhead; simp at hhead
  | cons m0 rest =>
    rw [hl] at hhead
    simp only [List.head?_cons, Option.some.injEq] at hhead
    subst hhead
    have hfd : List.find? (fun m' => dictContains m' t) (m0 :: rest) =
        some m0 := by
      simp [List.find?, hcontains]
    rw [hfd]
    simp only [Option.map_some']
    unfold dictGet
    rw [hfind]
    rfl

lemma buildMapping_position_spec {cs : List Change} {t1 h1 p1 t2 h2 p2 : Nat}
    (hm1 : (t1, h1, p1) ∈ buildMapping cs)
    (hm2 : (t2, h2, p2) ∈ buildMapping cs) (hlt : t1 < t2) :
    1 ≤ p1 ∧ p1 < p2 ∧ p2 ≤ cs.length ∧
      p2 - p1 = ((cs.drop p1).take (p2 - p1)).length := by
  obtain ⟨k1, hk1, hs1, he1⟩ := mem_buildMappingAux cs 1 1 hm1
  obtain ⟨k2, hk2, hs2, he2⟩ := mem_buildMappingAux cs 1 1 hm2
  rw [Prod.mk.injEq, Prod.mk.injEq] at he1 he2
  obtain ⟨ht1, -, hp1⟩ := he1
  obtain ⟨ht2, -, hp2⟩ := he2
  have hkk : k1 < k2 := by
    by_contra hcon
    push_neg at hcon
    have := numMapped_take_mono cs hcon
    omega
  have hlen : ((cs.drop p1).take (p2 - p1)).length = p2 - p1 := by
    rw [List.length_take, List.length_drop]
    omega
  exact ⟨by omega, by omega, by omega, hlen.symm⟩

/-! ### Lemmas: the whitespace and substring splitters -/

lemma pySplitWSAux_word {w : PyStr} (hw : ∀ c ∈ w, isPySpaceChar c = false) :
    ∀ (s acc : PyStr),
      pySplitWSAux (w ++ s) acc = pySplitWSAux s (w.reverse ++ acc) := by
  induction w with
  | nil => intro s acc; simp
  | cons c w ih =>
    intro s acc
    have hc : isPySpaceChar c = false := hw c (by simp)
    simp only [List.cons_append, pySplitWSAux, List.append_eq, hc,
      Bool.false_eq_true, if_false]
    rw [ih (fun c' hc' => hw c' (by simp [hc'])) s (c :: acc)]
    simp [List.append_assoc]

lemma pySplitWSAux_space_ne {c : Char} (hc : isPySpaceChar c = true)
    (s : PyStr) {acc : PyStr} (ha : acc ≠ []) :
    pySplitWSAux (c :: s) acc = acc.reverse :: pySplitWSAux s [] := by
  cases acc with
  | nil => exact absurd rfl ha
  | cons a l => simp [pySplitWSAux, hc]

lemma pySplitWSAux_nil_ne {acc : PyStr} (ha : acc ≠ []) :
    pySplitWSAux [] acc = [acc.reverse] := by
  cases acc with
  | nil => exact absurd rfl ha
  | cons a l => simp [pySplitWSAux]

lemma pySplitOn2Aux_no_occur {a b : Char} :
    ∀ (s acc : List Char), ¬ List.IsInfix [a, b] s →
      pySplitOn2Aux a b s acc = [acc.reverse ++ s] := by
  intro s
  induction s with
  | nil => intro acc h; simp [pySplitOn2Aux]
  | cons c rest ih =>
    intro acc h
    cases rest with
    | nil => simp [pySplitOn2Aux]
    | cons d rest' =>
      have hno : ¬ (c = a ∧ d = b) := by
        rintro ⟨hca, hdb⟩
        exact h ⟨[], rest', by simp [hca, hdb]⟩
      simp only [pySplitOn2Aux, if_neg hno]
      rw [ih (c :: acc) (fun hinf => h (List.infix_cons hinf))]
      simp

lemma pySplitOn2_strip {a b : Char} {q : List Char}
    (h : ¬ List.IsInfix [a, b] q) :
    pySplitOn2 a b (a :: b :: q) = [[], q] := by
  unfold pySplitOn2
  simp only [pySplitOn2Aux, if_pos (⟨rfl, rfl⟩ : a = a ∧ b = b)]
  rw [pySplitOn2Aux_no_occur q [] h]
  simp

/-! ### Lemmas: the path filter -/

lemma filter_files_no_patterns (spec : List PyStr → PyStr → Bool)
    (files : List PyStr) :
    filter_files_by_patterns spec files none none = files := by
  cases files <;> simp [filter_files_by_patterns, optTruthy]

/-! ### Lemmas: symbolic evaluation of a file-boundary line -/

lemma pySplitWS_c7Line (p q : PyStr) (hp : ∀ c ∈ p, isPySpaceChar c = false)
    (hq : ∀ c ∈ q, isPySpaceChar c = false) :
    pySplitWS (c7Line p q) =
      ["diff".data, "--git".data, 'a' :: '/' :: p, 'b' :: '/' :: q] := by
  have hwa : ∀ c ∈ ('a' :: '/' :: p), isPySpaceChar c = false := by
    intro c hc
    simp only [List.mem_cons] at hc
    rcases hc with rfl | rfl | hc
    · decide
    · decide
    · exact hp c hc
  have hwb : ∀ c ∈ ('b' :: '/' :: q), isPySpaceChar c = false := by
    intro c hc
    simp only [List.mem_cons] at hc
    rcases hc with rfl | rfl | hc
    · decide
    · decide
    · exact hq c hc
  have hX : c7Line p q =
      "diff".data ++ (' ' :: ("--git".data ++ (' ' ::
        (('a' :: '/' :: p) ++ (' ' :: (('b' :: '/' :: q) ++ [])))))) := by
    simp [c7Line]
  rw [pySplitWS, hX]
  rw [pySplitWSAux_word (by decide)]
  rw [pySplitWSAux_space_ne (by decide) _ (by decide)]
  rw [pySplitWSAux_word (by decide)]
  rw [pySplitWSAux_space_ne (by decide) _ (by decide)]
  rw [pySplitWSAux_word hwa]
  rw [pySplitWSAux_space_ne (by decide) _ (by simp)]
  rw [pySplitWSAux_word hwb]
  rw [pySplitWSAux_nil_ne (by simp)]
  simp

lemma fileBoundaryStep_c7Line (spec : List PyStr → PyStr → Bool) (p q : PyStr)
    (hqne : q ≠ []) (hp : ∀ c ∈ p, isPySpaceChar c = false)
    (hq2 : ∀ c ∈ q, isPySpaceChar c = false)
    (hpa : ¬ List.IsInfix ['a', '/'] p)
    (hqb : ¬ List.IsInfix ['b', '/'] q) :
    fileBoundaryStep spec none none initState (c7Line p q) =
      some { result := [],
             current_file := some { old_path := some p, new_path := some q,
                                    chunks := [], hunk_line_mappings := [] },
             current_chunk := none, current_hunk_line := 0,
             current_diff_line := 0 } := by
  have hqE : q.isEmpty = false := by
    cases q with
    | nil => exact absurd rfl hqne
    | cons a l => rfl
  have h1 : fileBoundaryStep spec none none initState (c7Line p q) =
      (match (pySplitOn2 'b' '/' ('b' :: '/' :: q)).drop 1 with
       | [] => none
       | display_path :: _ =>
         if display_path.isEmpty ||
            (filter_files_by_patterns spec [display_path] none none).isEmpty then
           some { initState with current_file := none, current_chunk := none }
         else
           match (pySplitOn2 'a' '/' ('a' :: '/' :: p)).drop 1 with
           | [] => none
           | old_p :: _ =>
             some { initState with
                    current_file :=
                      some ({ old_path := some old_p,
                              new_path := some display_path,
                              chunks := [], hunk_line_mappings := [] }),
                    current_chunk := none,
                    current_hunk_line := 0, current_diff_line := 0 }) := by
    unfold fileBoundaryStep
    rw [pySplitWS_c7Line p q hp hq2]
    rfl
  rw [h1, pySplitOn2_strip hqb, pySplitOn2_strip hpa]
  simp only [List.drop_succ_cons, List.drop_zero]
  rw [hqE]
  rw [filter_files_no_patterns]
  simp [initState]

lemma take_succ_getD {α : Type} (d : α) :
    ∀ (l : List α) (j : Nat), j < l.length →
      l.take (j + 1) = l.take j ++ [l.getD j d] := by
  intro l
  induction l with
  | nil => intro j h; simp at h
  | cons a l ih =>
    intro j h
    cases j with
    | zero => simp [List.getD]
    | succ j =>
      simp only [List.take_succ_cons, List.getD_cons_succ, List.cons_append,
        List.cons.injEq, true_and]
      exact ih j (by simpa using h)

/-- Every entry `(t, k, p)` of a recomputed mapping points at a real consumed
diff line: `p` is one more than the 0-based index `j` of the recorded change,
that change is of type `add` or `context`, and the key `t` is one more than
the number of `add`/`context` changes before it. -/
lemma buildMapping_entry_spec {cs : List Change} {t k p : Nat}
    (hm : (t, k, p) ∈ buildMapping cs) :
    ∃ j, j < cs.length ∧ p = j + 1 ∧
      isMappedType ((cs.getD j dummyChange).type) = true ∧
      t = 1 + numMapped (cs.take j) := by
  obtain ⟨j, hj, hstep, he⟩ := mem_buildMappingAux cs 1 1 hm
  rw [Prod.mk.injEq, Prod.mk.injEq] at he
  obtain ⟨ht, -, hp⟩ := he
  refine ⟨j, hj, by omega, ?_, by omega⟩
  rw [take_succ_getD dummyChange cs j hj, numMapped_append,
    numMapped_singleton] at hstep
  by_cases hmt : isMappedType ((cs.getD j dummyChange).type)
  · exact hmt
  · rw [if_neg hmt] at hstep
    omega

/-! ### The claims -/

/-- C8: `filter_files_by_patterns(paths, None, None)` returns exactly the
input list — same elements, same order, duplicates preserved (the filter
never deduplicates or reorders) — and an empty input yields an empty result,
for every pathspec matcher. -/
theorem c8_filter_identity (spec : List PyStr → PyStr → Bool)
    (files : List PyStr) :
    filter_files_by_patterns spec files none none = files :=
  filter_files_no_patterns spec files

/-- C9: `filter_files_by_patterns` treats an empty include-pattern list
exactly like an absent one — for every path list and every exclude argument,
`filter(paths, [], exclude)` equals `filter(paths, None, exclude)` (the
Python truthiness test `if include_patterns:` is false for both). -/
theorem c9_empty_include_like_none (spec : List PyStr → PyStr → Bool)
    (files : List PyStr) (exclude_patterns : Option (List PyStr)) :
    filter_files_by_patterns spec files (some []) exclude_patterns =
      filter_files_by_patterns spec files none exclude_patterns := by
  simp [filter_files_by_patterns, optTruthy]

/-- C3 (code bug): `parse_diff_text` does not terminate normally on every
input: on `"diff --git foo bar"` the token `bar` contains no `b/`, so
`paths[1].split("b/")[1]` raises `IndexError` (modelled as `none`),
contradicting the spec's "never a fatal failure". -/
theorem c3_parse_raises_on_malformed (spec : List PyStr → PyStr → Bool) :
    parse_diff_text spec "diff --git foo bar" none none = none := rfl

/-- C4 (code bug): parsing a pure-deletion diff (`c4Diff`, whose new-file
side is `+++ /dev/null`) yields that file in the result, with its hunk of two
removed lines and `is_deleted_file = False` — the live parser never detects
or excludes deletions, contradicting the spec's "deleted files are excluded
from the parse result entirely". -/
theorem c4_deleted_file_included (spec : List PyStr → PyStr → Bool) :
    (parse_diff_text spec c4Diff none none).map
        (fun fs => fs.map fun f =>
          (f.new_path, f.is_deleted_file,
            f.chunks.map fun ck => ck.changes.map (·.type))) =
      some [(some "gone.txt".data, false, [["remove", "remove"]])] := rfl

/-- C6: every file in the list returned by `parse_diff_text` has at least one
hunk (`chunks` is non-empty), for every diff text, every include/exclude
pattern choice and every pathspec matcher; in particular a file header
followed by no `@@` line never materializes in the result. -/
theorem c6_no_empty_chunks (spec : List PyStr → PyStr → Bool)
    (diff_text : String)
    (exclude_patterns include_patterns : Option (List PyStr))
    (files : List DiffFile)
    (h : parse_diff_text spec diff_text exclude_patterns include_patterns =
      some files) :
    ∀ f ∈ files, f.chunks ≠ [] :=
  fun f hf => (parse_diff_text_good h f hf).2

theorem c6_no_empty_chunks_witness : wFile.chunks ≠ [] :=
  c6_no_empty_chunks anySpec wDiff none none wFiles rfl wFile (by decide)

/-- C10: every `DiffFile` returned by `parse_diff_text` has
`is_new_file = False`, `is_deleted_file = False`, `is_renamed_file = False`,
and both `old_path` and `new_path` set to non-None strings, regardless of the
diff's content and the patterns. -/
theorem c10_flags_and_paths (spec : List PyStr → PyStr → Bool)
    (diff_text : String)
    (exclude_patterns include_patterns : Option (List PyStr))
    (files : List DiffFile)
    (h : parse_diff_text spec diff_text exclude_patterns include_patterns =
      some files) :
    ∀ f ∈ files,
      f.is_new_file = false ∧ f.is_deleted_file = false ∧
      f.is_renamed_file = false ∧ f.old_path.isSome = true ∧
      f.new_path.isSome = true := by
  intro f hf
  obtain ⟨⟨h1, h2, h3, h4, h5, -, -⟩, -⟩ := parse_diff_text_good h f hf
  exact ⟨h3, h4, h5, h1, h2⟩

theorem c10_flags_and_paths_witness :
    wFile.is_new_file = false ∧ wFile.is_deleted_file = false ∧
    wFile.is_renamed_file = false ∧ wFile.old_path.isSome = true ∧
    wFile.new_path.isSome = true :=
  c10_flags_and_paths anySpec wDiff none none wFiles rfl wFile (by decide)

/-- C2 (amended): for every hunk of every parsed file, the key list of
`hunk_line_mapping` is exactly `[1, …, n]` (`List.range' 1 n`) where `n` is
the number of that hunk's `context` and `added` lines — the hunk-local
1-based target-line counter values — and removed lines never contribute a
key. The original claim's "absolute new-file line numbers" fails because the
counter resets to 1 at every hunk; see `c2_mapping_keys_cex`. -/
theorem c2_mapping_keys_amended (spec : List PyStr → PyStr → Bool)
    (diff_text : String)
    (exclude_patterns include_patterns : Option (List PyStr))
    (files : List DiffFile)
    (h : parse_diff_text spec diff_text exclude_patterns include_patterns =
      some files) :
    ∀ f ∈ files, ∀ ck ∈ f.chunks,
      ck.hunk_line_mapping.map (fun e => e.1) =
        List.range' 1 (numMapped ck.changes) := by
  intro f hf ck hck
  obtain ⟨⟨-, -, -, -, -, h6, -⟩, -⟩ := parse_diff_text_good h f hf
  rw [h6 ck hck]
  exact buildMappingAux_keys ck.changes 1 1

theorem c2_mapping_keys_witness :
    wChunk.hunk_line_mapping.map (fun e => e.1) =
      List.range' 1 (numMapped wChunk.changes) :=
  c2_mapping_keys_amended anySpec wDiff none none wFiles rfl wFile
    (by decide) wChunk (by decide)

/-- C2 counterexample: in `c2Diff` the only hunk is `@@ -5,1 +5,1 @@` with a
single context line, whose absolute line number in the new file is 5; the
recorded key list is `[1]`, not `[5]`. -/
theorem c2_mapping_keys_cex :
    c2Chunk.header = "@@ -5,1 +5,1 @@".data ∧
    c2Chunk.hunk_line_mapping.map (fun e => e.1) = [1] ∧
    c2Chunk.hunk_line_mapping.map (fun e => e.1) ≠ [5] :=
  ⟨rfl, rfl, by decide⟩

/-- C5: within any hunk of any parsed file the position counter starts at 1
and advances by exactly one per diff line consumed (added, removed or
context): every mapping entry `(t, (k, p))` satisfies `p = j + 1` where `j`
is the 0-based index in `changes` of the recorded line, that line is a
`context` or `added` change, and the key `t` is one more than the number of
`context`/`added` changes before it; consequently, for entries with keys
`t1 < t2`, `p2 - p1` equals the number of diff lines (of all three kinds)
consumed between the line recorded at `t1` and the line recorded at `t2`
(the changes with 1-based position in `(p1, p2]`). -/
theorem c5_position_increments (spec : List PyStr → PyStr → Bool)
    (diff_text : String)
    (exclude_patterns include_patterns : Option (List PyStr))
    (files : List DiffFile)
    (h : parse_diff_text spec diff_text exclude_patterns include_patterns =
      some files) :
    ∀ f ∈ files, ∀ ck ∈ f.chunks,
      (∀ t k p : Nat, (t, k, p) ∈ ck.hunk_line_mapping →
        ∃ j, j < ck.changes.length ∧ p = j + 1 ∧
          isMappedType ((ck.changes.getD j dummyChange).type) = true ∧
          t = 1 + numMapped (ck.changes.take j)) ∧
      (∀ t1 k1 p1 t2 k2 p2 : Nat,
        (t1, k1, p1) ∈ ck.hunk_line_mapping →
        (t2, k2, p2) ∈ ck.hunk_line_mapping → t1 < t2 →
        p1 < p2 ∧
          p2 - p1 = ((ck.changes.drop p1).take (p2 - p1)).length) := by
  intro f hf ck hck
  obtain ⟨⟨-, -, -, -, -, h6, -⟩, -⟩ := parse_diff_text_good h f hf
  rw [h6 ck hck]
  constructor
  · intro t k p hm
    exact buildMapping_entry_spec hm
  · intro t1 k1 p1 t2 k2 p2 hm1 hm2 hlt
    have hs := buildMapping_position_spec hm1 hm2 hlt
    exact ⟨hs.2.1, hs.2.2.2⟩

theorem c5_position_increments_witness :
    (∃ j, j < wChunk.changes.length ∧ 3 = j + 1 ∧
      isMappedType ((wChunk.changes.getD j dummyChange).type) = true ∧
      2 = 1 + numMapped (wChunk.changes.take j)) ∧
    (1 < 3 ∧ 3 - 1 = ((wChunk.changes.drop 1).take (3 - 1)).length) :=
  ⟨(c5_position_increments anySpec wDiff none none wFiles rfl wFile
      (by decide) wChunk (by decide)).1 2 2 3 (by decide),
   (c5_position_increments anySpec wDiff none none wFiles rfl wFile
      (by decide) wChunk (by decide)).2 1 1 1 2 2 3 (by decide) (by decide)
      (by decide)⟩

/-- C1 (amended): the resolver round-trip holds for every entry of the first
mapping in a file's `hunk_line_mappings` list: looking its target line up via
the comment-posting scan (first mapping containing the key) returns exactly
the recorded diff position. The original claim — round-trip for every entry
of every hunk — fails, because keys restart at 1 in every hunk (so an entry
of a later hunk is shadowed by the first hunk's entry with the same key) and
because the end-of-input flush never appends the final hunk's mapping; see
`c1_resolver_roundtrip_cex`. -/
theorem c1_resolver_roundtrip_amended (spec : List PyStr → PyStr → Bool)
    (diff_text : String)
    (exclude_patterns include_patterns : Option (List PyStr))
    (files : List DiffFile)
    (h : parse_diff_text spec diff_text exclude_patterns include_patterns =
      some files) :
    ∀ f ∈ files, ∀ (m : List (Nat × Nat × Nat)) (t kv pv : Nat),
      f.hunk_line_mappings.head? = some m → (t, kv, pv) ∈ m →
      resolve_comment_position f t = some pv := by
  intro f hf m t kv pv hhead hmem
  exact resolve_head_mapping (parse_diff_text_good h f hf).1 hhead hmem

theorem c1_resolver_roundtrip_witness :
    resolve_comment_position w1File 2 = some 2 :=
  c1_resolver_roundtrip_amended anySpec w1Diff none none w1Files rfl w1File
    (by decide) [(1, 1, 1), (2, 2, 2)] 2 2 2 (by decide) (by decide)

/-- C1 counterexample: in `c1Diff` the second hunk records the entry
`(1, (1, 1))` in its `hunk_line_mapping` during parsing, but resolving target
line 1 via the file's `hunk_line_mappings` scan returns position 2, not 1:
the first hunk's mapping also contains key 1 (with position 2, an added line
preceded by a removed line) and shadows it, and the second hunk's mapping was
never appended to `hunk_line_mappings` by the end-of-input flush. -/
theorem c1_resolver_roundtrip_cex :
    (1, 1, 1) ∈ (c1File.chunks.getD 1 emptyChunk).hunk_line_mapping ∧
    c1File.hunk_line_mappings = [[(1, 1, 2)]] ∧
    resolve_comment_position c1File 1 = some 2 ∧ (2 : Nat) ≠ 1 :=
  ⟨by decide, rfl, rfl, by decide⟩

/-- C7 (amended): for a file-boundary line `diff --git a/<p> b/<q>` in which
`p` and `q` contain no whitespace, `q` is non-empty, `p` contains no further
occurrence of the substring `a/` and `q` no further occurrence of `b/`
(beyond the stripped leading prefixes), the parsed file has `old_path = p`
and `new_path = q`. The original claim — equality for ALL paths, including
ones containing `a/` or `b/` inside them — fails because Python's
`split("b/")` splits at every occurrence and the code takes element `[1]`;
see `c7_path_extraction_cex`. -/
theorem c7_path_extraction_amended (spec : List PyStr → PyStr → Bool)
    (p q : PyStr) (hqne : q ≠ [])
    (hp : ∀ c ∈ p, isPySpaceChar c = false)
    (hq2 : ∀ c ∈ q, isPySpaceChar c = false)
    (hpa : ¬ List.IsInfix ['a', '/'] p)
    (hqb : ¬ List.IsInfix ['b', '/'] q) :
    (runLines spec none none initState
        [c7Line p q, "@@ -1 +1 @@".data, "+x".data]).map
      (fun st => (finalFlush st).map fun f => (f.old_path, f.new_path)) =
      some [(some p, some q)] := by
  have hproc : processLine spec none none initState (c7Line p q) =
      fileBoundaryStep spec none none initState (c7Line p q) := by
    unfold processLine
    rw [show pyStartsWith "diff --git".data (c7Line p q) = true from rfl]
    rfl
  simp only [runLines, hproc,
    fileBoundaryStep_c7Line spec p q hqne hp hq2 hpa hqb]
  rfl

theorem c7_path_extraction_witness :
    (runLines anySpec none none initState
        [c7Line "x.txt".data "y.txt".data, "@@ -1 +1 @@".data, "+x".data]).map
      (fun st => (finalFlush st).map fun f => (f.old_path, f.new_path)) =
      some [(some "x.txt".data, some "y.txt".data)] :=
  c7_path_extraction_amended anySpec "x.txt".data "y.txt".data (by decide)
    (by decide) (by decide) (by decide) (by decide)

/-- C7 counterexample: for the boundary line `diff --git a/xa/y b/ab/c`
(paths containing a further `a/` resp. `b/`), the parsed file's paths are
`x` and `a` — the pieces between the first and second separator occurrences —
not `xa/y` and `ab/c`. -/
theorem c7_path_extraction_cex :
    (parse_diff_text anySpec c7CexDiff none none).map
        (fun fs => fs.map fun f => (f.old_path, f.new_path)) =
      some [(some "x".data, some "a".data)] ∧
    "x".data ≠ "xa/y".data ∧ "a".data ≠ "ab/c".data :=
  ⟨rfl, by decide, by decide⟩
